import Mathlib

/-!
Verification development for the random-walk Metropolis benchmark
(`pytorch_sampler.py`).  Tensors of shape (D, C) are embedded as functions
`Fin D → Fin C → F` where `F` is an idealized floating-point scalar: a real
number, one of the two infinities, or NaN.  Randomness (the Gaussian
perturbations and the uniform draws) is passed in as explicit input streams,
so the sampler is a deterministic function of its inputs.
-/

open scoped Classical

/-- Idealized scalar held in a floating-point tensor cell: NaN, -inf, +inf,
or a finite real number. -/
inductive F where
  | nan : F
  | neginf : F
  | posinf : F
  | real : ℝ → F

/-- IEEE-style addition on idealized scalars: NaN propagates, opposite
infinities give NaN, an infinity absorbs finite values. -/
def fadd : F → F → F
  | F.nan, _ => F.nan
  | _, F.nan => F.nan
  | F.neginf, F.posinf => F.nan
  | F.posinf, F.neginf => F.nan
  | F.neginf, _ => F.neginf
  | _, F.neginf => F.neginf
  | F.posinf, _ => F.posinf
  | _, F.posinf => F.posinf
  | F.real a, F.real b => F.real (a + b)

/-- IEEE-style negation. -/
def fneg : F → F
  | F.nan => F.nan
  | F.neginf => F.posinf
  | F.posinf => F.neginf
  | F.real a => F.real (-a)

/-- IEEE-style subtraction, `a - b = a + (-b)`. -/
def fsub (a b : F) : F := fadd a (fneg b)

/-- IEEE-style strict comparison: any comparison involving NaN is false,
-inf is below everything else, +inf above everything else. -/
def flt : F → F → Prop
  | F.nan, _ => False
  | _, F.nan => False
  | F.neginf, F.neginf => False
  | F.neginf, _ => True
  | _, F.neginf => False
  | F.posinf, _ => False
  | F.real _, F.posinf => True
  | F.real a, F.real b => a < b

/-- `torch.log` on idealized scalars: `log 0 = -inf`, `log` of a negative
value or NaN is NaN, `log (+inf) = +inf`. -/
noncomputable def flog : F → F
  | F.nan => F.nan
  | F.neginf => F.nan
  | F.posinf => F.posinf
  | F.real x => if 0 < x then F.real (Real.log x) else if x = 0 then F.neginf else F.nan

/-- Chain state carried across iterations of `rw_metropolis_sampler`:
the position tensor and the stored log-density tensor.  The code stores
`log_prob` as a length-C vector initially, but the first
`torch.where(do_accept, proposal_log_prob, log_prob)` with a (D, C) mask
broadcasts it to shape (D, C); we represent it as a (D, C) tensor throughout,
with the initial value constant along the D axis (the exact broadcast
semantics). -/
structure SState (D C : ℕ) where
  position : Fin D → Fin C → F
  log_prob : Fin D → Fin C → F

/-- `proposal = position + move_proposals` (line 30); the Gaussian samples
are finite floats, hence real-valued. -/
def proposalOf {D C : ℕ} (s : SState D C) (noise : Fin D → Fin C → ℝ) :
    Fin D → Fin C → F :=
  fun d c => fadd (s.position d c) (F.real (noise d c))

/-- `do_accept = log_uniform < proposal_log_prob - log_prob` (lines 33-35).
`torch.rand` has shape `(shape[0], shape[1]) = (D, C)`, so the mask is a
(D, C) tensor: the comparison broadcasts the length-C vector
`proposal_log_prob` across the D axis. -/
noncomputable def do_accept {D C : ℕ}
    (logpdf : (Fin D → Fin C → F) → Fin C → F)
    (noise u : Fin D → Fin C → ℝ) (s : SState D C) :
    Fin D → Fin C → Prop :=
  fun d c =>
    flt (flog (F.real (u d c)))
      (fsub (logpdf (proposalOf s noise) c) (s.log_prob d c))

/-- One iteration of the `while True` loop of `rw_metropolis_sampler`
(lines 29-39): propose, evaluate the log-density once, compare against the
log of a (D, C) uniform tensor, and merge per cell with `torch.where`. -/
noncomputable def metropolisStep {D C : ℕ}
    (logpdf : (Fin D → Fin C → F) → Fin C → F)
    (noise u : Fin D → Fin C → ℝ) (s : SState D C) : SState D C where
  position := fun d c =>
    if do_accept logpdf noise u s d c then proposalOf s noise d c
    else s.position d c
  log_prob := fun d c =>
    if do_accept logpdf noise u s d c then logpdf (proposalOf s noise) c
    else s.log_prob d c

/-- Initial chain state (lines 23-24): the caller's position, and the
log-density of the initial position (a length-C vector, broadcast along D). -/
def initState {D C : ℕ} (logpdf : (Fin D → Fin C → F) → Fin C → F)
    (initial_position : Fin D → Fin C → F) : SState D C where
  position := initial_position
  log_prob := fun _ c => logpdf initial_position c

/-- Chain state just before the (n+1)-st `yield`: the initial state followed
by n loop iterations, fed by the noise stream and the uniform stream. -/
noncomputable def sampleState {D C : ℕ}
    (logpdf : (Fin D → Fin C → F) → Fin C → F)
    (initial_position : Fin D → Fin C → F)
    (noise u : ℕ → Fin D → Fin C → ℝ) : ℕ → SState D C
  | 0 => initState logpdf initial_position
  | n + 1 => metropolisStep logpdf (noise n) (u n)
      (sampleState logpdf initial_position noise u n)

/-- The n-th tensor yielded by the generator `rw_metropolis_sampler`:
draw 0 is the initial position (line 25), draw n+1 the position after the
(n+1)-st loop iteration (line 39). -/
noncomputable def rw_metropolis_sampler {D C : ℕ}
    (logpdf : (Fin D → Fin C → F) → Fin C → F)
    (initial_position : Fin D → Fin C → F)
    (noise u : ℕ → Fin D → Fin C → ℝ) (n : ℕ) : Fin D → Fin C → F :=
  (sampleState logpdf initial_position noise u n).position

-- Basic evaluation lemmas for the scalar operations.

theorem fadd_real (a b : ℝ) : fadd (F.real a) (F.real b) = F.real (a + b) := rfl

theorem fsub_real (a b : ℝ) : fsub (F.real a) (F.real b) = F.real (a + -b) := rfl

theorem fadd_nan_left (b : F) : fadd F.nan b = F.nan := by cases b <;> rfl

theorem fsub_nan_left (b : F) : fsub F.nan b = F.nan := fadd_nan_left _

theorem flt_real_real (a b : ℝ) : flt (F.real a) (F.real b) ↔ a < b := Iff.rfl

theorem not_flt_nan_right (a : F) : ¬ flt a F.nan := by cases a <;> exact id

theorem flt_neginf_real (r : ℝ) : flt F.neginf (F.real r) := trivial

theorem flog_zero : flog (F.real 0) = F.neginf := by
  simp [flog]

theorem flog_pos {x : ℝ} (h : 0 < x) : flog (F.real x) = F.real (Real.log x) := by
  simp [flog, h]

/-! ### The mixture target (lines 42-64), idealized over the reals -/

/-- `loc = torch.Tensor([[-2, 0, 3.2, 2.5]]).T` (line 42). -/
def loc : Fin 4 → ℝ := ![(-2 : ℝ), 0, 3.2, 2.5]

/-- `scale = torch.Tensor([[1.2, 1, 5, 2.8]]).T` (line 43). -/
def scale : Fin 4 → ℝ := ![(1.2 : ℝ), 1, 5, 2.8]

/-- `weights = torch.Tensor([[0.2, 0.3, 0.1, 0.4]]).T` (line 44). -/
def weights : Fin 4 → ℝ := ![(0.2 : ℝ), 0.3, 0.1, 0.4]

/-- `Normal(loc, scale).log_prob(x)`, the closed form used by
`torch.distributions.normal.Normal.log_prob`:
`-((x - loc)^2) / (2 * scale^2) - log scale - log (sqrt (2 * pi))`. -/
noncomputable def normal_log_prob (m s x : ℝ) : ℝ :=
  -((x - m) ^ 2) / (2 * s ^ 2) - Real.log s - Real.log (Real.sqrt (2 * Real.pi))

/-- `torch.logsumexp(t, axis=0)` over the 4 mixture components, idealized:
`log (sum_k exp (t k))`. -/
noncomputable def logsumexp (t : Fin 4 → ℝ) : ℝ :=
  Real.log (∑ k, Real.exp (t k))

/-- `mixture_logpdf` (lines 48-64): per chain c, the negation of
`logsumexp_k (log (weights k) + Normal(loc, scale).log_prob(x)[k, c])`.
The (4, 1) parameter columns broadcast against the (4, C) input, pairing
component k with row k of the input. -/
noncomputable def mixture_logpdf {C : ℕ} (x : Fin 4 → Fin C → ℝ) (c : Fin C) : ℝ :=
  -(logsumexp (fun k => Real.log (weights k) + normal_log_prob (loc k) (scale k) (x k c)))

/-- The density of a normal distribution with mean m and standard deviation s,
written as the spec's `N(x; loc_k, scale_k)`. -/
noncomputable def normalPdf (m s x : ℝ) : ℝ :=
  (1 / (s * Real.sqrt (2 * Real.pi))) * Real.exp (-((x - m) ^ 2) / (2 * s ^ 2))

/-- Modelled from the spec's formula in section 4.1: the negation of
`logsumexp_k (log (weight_k) + log N(x; loc_k, scale_k))`, with the log of the
literal Gaussian density in place of torch's expanded closed form. -/
noncomputable def specMixtureLogpdf {C : ℕ} (x : Fin 4 → Fin C → ℝ) (c : Fin C) : ℝ :=
  -(logsumexp (fun k =>
      Real.log (weights k) + Real.log (normalPdf (loc k) (scale k) (x k c))))

/-! ### The driver loop (lines 76-84) -/

/-- The `for i, sample in enumerate(samples): if i > n_samples: break` loop,
counting the draws pulled from the generator starting at index i: each
iteration pulls one draw, then breaks when `i > n_samples`. -/
def driverConsume (n : ℤ) (i : ℕ) : ℕ :=
  if (i : ℤ) > n then 1 else 1 + driverConsume n (i + 1)
termination_by (n + 1 - i).toNat
decreasing_by
  simp only [not_lt] at *
  omega

/-! ### Call-counting instrumentation for the log-density -/

/-- A call to `logpdf`, also bumping a running call counter; used exactly at
the two call sites of the source (line 24 and line 31). -/
def countedCall {D C : ℕ} (logpdf : (Fin D → Fin C → F) → Fin C → F)
    (x : Fin D → Fin C → F) (k : ℕ) : (Fin C → F) × ℕ :=
  (logpdf x, k + 1)

/-- `initState` with the call counter threaded through: the setup
(lines 23-24) makes one `logpdf` call before the first yield. -/
def initStateCounted {D C : ℕ} (logpdf : (Fin D → Fin C → F) → Fin C → F)
    (initial_position : Fin D → Fin C → F) : SState D C × ℕ :=
  let pc := countedCall logpdf initial_position 0
  ({ position := initial_position, log_prob := fun _ c => pc.1 c }, pc.2)

/-- One loop iteration with the call counter threaded through: the body
(lines 29-39) calls `logpdf` exactly at line 31. -/
noncomputable def metropolisStepCounted {D C : ℕ}
    (logpdf : (Fin D → Fin C → F) → Fin C → F)
    (noise u : Fin D → Fin C → ℝ) (s : SState D C × ℕ) : SState D C × ℕ :=
  let pc := countedCall logpdf (proposalOf s.1 noise) s.2
  ({ position := fun d c =>
      if flt (flog (F.real (u d c))) (fsub (pc.1 c) (s.1.log_prob d c))
      then proposalOf s.1 noise d c else s.1.position d c,
     log_prob := fun d c =>
      if flt (flog (F.real (u d c))) (fsub (pc.1 c) (s.1.log_prob d c))
      then pc.1 c else s.1.log_prob d c }, pc.2)

/-- The state before the (n+1)-st yield together with the cumulative number
of `logpdf` calls made so far. -/
noncomputable def sampleCounted {D C : ℕ}
    (logpdf : (Fin D → Fin C → F) → Fin C → F)
    (initial_position : Fin D → Fin C → F)
    (noise u : ℕ → Fin D → Fin C → ℝ) : ℕ → SState D C × ℕ
  | 0 => initStateCounted logpdf initial_position
  | n + 1 => metropolisStepCounted logpdf (noise n) (u n)
      (sampleCounted logpdf initial_position noise u n)

/-- The rows of a yielded (D, C) tensor as an explicit list of lists,
making the runtime shape of a draw observable. -/
def drawRows {D C : ℕ} (M : Fin D → Fin C → F) : List (List F) :=
  List.ofFn (fun d => List.ofFn (fun c => M d c))

/-! ### Driver-loop lemmas -/

theorem driverConsume_exceed {n : ℤ} {i : ℕ} (h : n < (i : ℤ)) :
    driverConsume n i = 1 := by
  rw [driverConsume]
  simp [h]

theorem driverConsume_eq_of_toNat : ∀ (k : ℕ) (n : ℤ) (i : ℕ),
    (n + 1 - i).toNat = k → (i : ℤ) ≤ n + 1 → driverConsume n i = k + 1 := by
  intro k
  induction k with
  | zero =>
    intro n i hk hle
    have : n < (i : ℤ) := by omega
    simp [driverConsume_exceed this]
  | succ m ih =>
    intro n i hk hle
    have hle' : (i : ℤ) ≤ n := by omega
    rw [driverConsume]
    have hnot : ¬ ((i : ℤ) > n) := by omega
    rw [if_neg hnot]
    have h1 : (n + 1 - ((i : ℕ) + 1 : ℕ)).toNat = m := by push_cast; omega
    have h2 : (((i : ℕ) + 1 : ℕ) : ℤ) ≤ n + 1 := by push_cast; omega
    rw [ih n (i + 1) h1 h2]
    omega

/-- With a non-negative requested count s, the loop pulls exactly s + 2 draws. -/
theorem driverConsume_nonneg (s : ℕ) : driverConsume (s : ℤ) 0 = s + 2 := by
  have := driverConsume_eq_of_toNat (s + 1) (s : ℤ) 0 (by omega) (by omega)
  omega

/-- With a negative requested count, the loop pulls exactly one draw. -/
theorem driverConsume_neg {n : ℤ} (h : n < 0) : driverConsume n 0 = 1 :=
  driverConsume_exceed (by omega)

/-! ### Finiteness of positions -/

/-- Positions never pick up NaN or an infinity: if every cell of the initial
position is a finite real, every cell of every later position is too (the
per-cell merge only ever selects between the old value and old + noise). -/
theorem sampleState_position_real {D C : ℕ}
    (logpdf : (Fin D → Fin C → F) → Fin C → F)
    (initial_position : Fin D → Fin C → F)
    (noise u : ℕ → Fin D → Fin C → ℝ)
    (hinit : ∀ d c, ∃ r : ℝ, initial_position d c = F.real r) :
    ∀ n d c, ∃ r : ℝ,
      (sampleState logpdf initial_position noise u n).position d c = F.real r := by
  intro n
  induction n with
  | zero => exact hinit
  | succ m ih =>
    intro d c
    obtain ⟨r, hr⟩ := ih d c
    simp only [sampleState, metropolisStep]
    by_cases h : do_accept logpdf (noise m) (u m)
        (sampleState logpdf initial_position noise u m) d c
    · refine ⟨r + noise m d c, ?_⟩
      rw [if_pos h]
      simp [proposalOf, hr, fadd_real]
    · exact ⟨r, by rw [if_neg h]; exact hr⟩

/-! ### Numeric bounds on concrete logarithms -/

theorem log_eighth_lt_neg_one : Real.log (1 / 8 : ℝ) < -1 := by
  have h8 : (1 / 8 : ℝ) = ((2 : ℝ) ^ (3 : ℕ))⁻¹ := by norm_num
  rw [h8, Real.log_inv, Real.log_pow]
  have := Real.log_two_gt_d9
  push_cast
  nlinarith

theorem neg_one_le_log_half : (-1 : ℝ) ≤ Real.log (1 / 2 : ℝ) := by
  have hh : (1 / 2 : ℝ) = ((2 : ℝ))⁻¹ := by norm_num
  rw [hh, Real.log_inv]
  have := Real.log_two_lt_d9
  linarith

/-! ### Concrete instances used to evaluate the sampler -/

/-- A simple log-density on (2, 1) tensors: the top cell of the column. -/
def exLogpdf : (Fin 2 → Fin 1 → F) → Fin 1 → F := fun x c => x 0 c

/-- Zero initial position for the (2, 1) instance. -/
def exInit : Fin 2 → Fin 1 → F := fun _ _ => F.real 0

/-- Perturbations: -1 for the top cell, 5 for the bottom cell. -/
def exNoise : ℕ → Fin 2 → Fin 1 → ℝ := fun _ d _ => if d = 0 then -1 else 5

/-- Uniform draws: 1/8 for the top cell, 1/2 for the bottom cell. -/
noncomputable def exU : ℕ → Fin 2 → Fin 1 → ℝ :=
  fun _ d _ => if d = 0 then 1 / 8 else 1 / 2

theorem ex_plp :
    exLogpdf (proposalOf (initState exLogpdf exInit) (exNoise 0)) 0 = F.real (-1) := by
  show fadd (F.real 0) (F.real (exNoise 0 0 0)) = F.real (-1)
  norm_num [exNoise, fadd]

theorem ex_diff (d : Fin 2) :
    fsub (exLogpdf (proposalOf (initState exLogpdf exInit) (exNoise 0)) 0)
      ((initState exLogpdf exInit).log_prob d 0) = F.real (-1) := by
  rw [ex_plp]
  show F.real (-1 + -(0 : ℝ)) = F.real (-1)
  norm_num

theorem ex_accept00 :
    do_accept exLogpdf (exNoise 0) (exU 0) (initState exLogpdf exInit) 0 0 := by
  unfold do_accept
  rw [ex_diff 0]
  have hu : exU 0 0 0 = 1 / 8 := by norm_num [exU]
  rw [hu, flog_pos (by norm_num)]
  exact log_eighth_lt_neg_one

theorem ex_reject10 :
    ¬ do_accept exLogpdf (exNoise 0) (exU 0) (initState exLogpdf exInit) 1 0 := by
  unfold do_accept
  rw [ex_diff 1]
  have hu : exU 0 1 0 = 1 / 2 := by norm_num [exU]
  rw [hu, flog_pos (by norm_num)]
  exact not_lt.mpr neg_one_le_log_half

/-- Constant-zero log-density on (1, 1) tensors. -/
def zLogpdf : (Fin 1 → Fin 1 → F) → Fin 1 → F := fun _ _ => F.real 0

/-- Zero initial position for the (1, 1) instance. -/
def zInit : Fin 1 → Fin 1 → F := fun _ _ => F.real 0

/-- Constant perturbation 1. -/
def zNoise : ℕ → Fin 1 → Fin 1 → ℝ := fun _ _ _ => 1

/-- Uniform draw exactly 0. -/
def zU : ℕ → Fin 1 → Fin 1 → ℝ := fun _ _ _ => 0

/-- Log-density that is NaN everywhere, for the numerical-degeneracy case. -/
def nanLogpdf : (Fin 1 → Fin 1 → F) → Fin 1 → F := fun _ _ => F.nan

/-! ### The closed-form log of the Gaussian density -/

theorem log_normalPdf {m s x : ℝ} (hs : 0 < s) :
    Real.log (normalPdf m s x) = normal_log_prob m s x := by
  unfold normalPdf normal_log_prob
  have hsqrt : 0 < Real.sqrt (2 * Real.pi) :=
    Real.sqrt_pos.mpr (by positivity)
  have h1 : (1 / (s * Real.sqrt (2 * Real.pi))) ≠ 0 := by positivity
  rw [Real.log_mul h1 (Real.exp_ne_zero _), Real.log_exp, one_div, Real.log_inv,
    Real.log_mul (ne_of_gt hs) (ne_of_gt hsqrt)]
  ring

theorem scale_pos (k : Fin 4) : 0 < scale k := by
  fin_cases k <;> norm_num [scale]

/-! ### Agreement of the instrumented sampler with the plain one -/

theorem sampleCounted_fst {D C : ℕ}
    (logpdf : (Fin D → Fin C → F) → Fin C → F)
    (initial_position : Fin D → Fin C → F)
    (noise u : ℕ → Fin D → Fin C → ℝ) :
    ∀ n, (sampleCounted logpdf initial_position noise u n).1 =
      sampleState logpdf initial_position noise u n := by
  intro n
  induction n with
  | zero => rfl
  | succ m ih =>
    simp only [sampleCounted, sampleState, metropolisStepCounted, metropolisStep,
      countedCall, do_accept, ih]

/-! ### Claim theorems -/

/-- Claim C1 fails on the code: `torch.rand` is given the full
`(shape[0], shape[1]) = (D, C)` shape, so one uniform is drawn per
(dimension, chain) cell and `torch.where` merges per cell, not per chain.
At this concrete input (2 dimensions, 1 chain, zero initial position,
proposal column (-1, 5), uniforms 1/8 and 1/2, log-density difference -1)
cell (0, 0) accepts while cell (1, 0) rejects: the resulting column (-1, 0)
is neither the proposed column (-1, 5) nor the retained column (0, 0), so
acceptance is decided separately per cell, contradicting the claimed
length-C accept mask with wholesale column replacement. -/
theorem c1_acceptance_is_per_cell :
    (sampleState exLogpdf exInit exNoise exU 1).position 0 0 = F.real (-1) ∧
    (sampleState exLogpdf exInit exNoise exU 1).position 1 0 = F.real 0 ∧
    proposalOf (initState exLogpdf exInit) (exNoise 0) 1 0 = F.real 5 ∧
    F.real (-1 : ℝ) ≠ F.real (0 : ℝ) ∧
    F.real (5 : ℝ) ≠ F.real (0 : ℝ) := by
  refine ⟨?_, ?_, ?_, by norm_num, by norm_num⟩
  · show (metropolisStep exLogpdf (exNoise 0) (exU 0)
      (initState exLogpdf exInit)).position 0 0 = F.real (-1)
    simp only [metropolisStep]
    rw [if_pos ex_accept00]
    show fadd (F.real 0) (F.real (exNoise 0 0 0)) = F.real (-1)
    norm_num [exNoise, fadd]
  · show (metropolisStep exLogpdf (exNoise 0) (exU 0)
      (initState exLogpdf exInit)).position 1 0 = F.real 0
    simp only [metropolisStep]
    rw [if_neg ex_reject10]
    rfl
  · show fadd (F.real 0) (F.real (exNoise 0 1 0)) = F.real 5
    norm_num [exNoise, fadd]

/-- Claim C2 fails on the code: after the mixed accept/reject step of the
C1 instance, the stored log-density at cell (1, 0) is the stale value 0,
while the log-density of the current position of chain 0 recomputes to -1;
the stored value is not the log-density of the current position (the per-cell
`torch.where` on line 38 mixes old and proposed log-density values, and even
broadcasts the stored vector to a (D, C) tensor). -/
theorem c2_stored_log_density_stale :
    (sampleState exLogpdf exInit exNoise exU 1).log_prob 1 0 = F.real 0 ∧
    exLogpdf (sampleState exLogpdf exInit exNoise exU 1).position 0 = F.real (-1) ∧
    F.real (0 : ℝ) ≠ F.real (-1 : ℝ) := by
  refine ⟨?_, ?_, by norm_num⟩
  · show (metropolisStep exLogpdf (exNoise 0) (exU 0)
      (initState exLogpdf exInit)).log_prob 1 0 = F.real 0
    simp only [metropolisStep]
    rw [if_neg ex_reject10]
    rfl
  · show (metropolisStep exLogpdf (exNoise 0) (exU 0)
      (initState exLogpdf exInit)).position 0 0 = F.real (-1)
    simp only [metropolisStep]
    rw [if_pos ex_accept00]
    show fadd (F.real 0) (F.real (exNoise 0 0 0)) = F.real (-1)
    norm_num [exNoise, fadd]

/-- Claim C3: `mixture_logpdf` returns, per chain, the negation of
`logsumexp_k (log (weight_k) + log N(x; loc_k, scale_k))` with the fixed
locations [-2, 0, 3.2, 2.5], scales [1.2, 1, 5, 2.8] and weights
[0.2, 0.3, 0.1, 0.4]: the code's expanded Gaussian log-density agrees with
the log of the literal Gaussian density, so the returned value is the
negated log mixture density (with component k paired against input row k by
broadcasting). -/
theorem c3_mixture_logpdf_is_negated_log_mixture :
    loc = ![(-2 : ℝ), 0, 3.2, 2.5] ∧
    scale = ![(1.2 : ℝ), 1, 5, 2.8] ∧
    weights = ![(0.2 : ℝ), 0.3, 0.1, 0.4] ∧
    ∀ (C : ℕ) (x : Fin 4 → Fin C → ℝ) (c : Fin C),
      mixture_logpdf x c = specMixtureLogpdf x c := by
  refine ⟨rfl, rfl, rfl, ?_⟩
  intro C x c
  have hk : ∀ k : Fin 4,
      normal_log_prob (loc k) (scale k) (x k c)
        = Real.log (normalPdf (loc k) (scale k) (x k c)) :=
    fun k => (log_normalPdf (scale_pos k)).symm
  unfold mixture_logpdf specMixtureLogpdf logsumexp
  simp only [hk]

/-- Claim C4 as stated is false: a uniform draw of exactly 0 gives
`log 0 = -inf`, and `-inf < proposal_log_prob - log_prob` is TRUE whenever
the difference is not NaN or -inf, so the proposal is always ACCEPTED, not
rejected.  At this concrete input (uniform 0, log-density difference 0) the
position is replaced by the proposal 1 instead of retaining the previous
value 0. -/
theorem c4_zero_uniform_rejects_counterexample :
    zU 0 0 0 = 0 ∧
    (sampleState zLogpdf zInit zNoise zU 1).position 0 0 = F.real 1 ∧
    F.real (1 : ℝ) ≠ zInit 0 0 := by
  have hacc : do_accept zLogpdf (zNoise 0) (zU 0) (initState zLogpdf zInit) 0 0 := by
    show flt (flog (F.real 0)) (fsub (F.real 0) (F.real 0))
    rw [flog_zero]
    exact flt_neginf_real _
  refine ⟨rfl, ?_, ?_⟩
  · show (metropolisStep zLogpdf (zNoise 0) (zU 0)
      (initState zLogpdf zInit)).position 0 0 = F.real 1
    simp only [metropolisStep]
    rw [if_pos hacc]
    show fadd (F.real 0) (F.real 1) = F.real 1
    norm_num [fadd]
  · show F.real (1 : ℝ) ≠ F.real 0
    norm_num

/-- Claim C4, amended: if the uniform draw of a cell is exactly 0, the
comparison uses `log 0 = -inf` and the proposal is always ACCEPTED at that
cell (whenever the log-density difference is a finite real), rather than
crashing: the proposed position and log-density replace the previous
values. -/
theorem c4_zero_uniform_auto_accepts {D C : ℕ}
    (logpdf : (Fin D → Fin C → F) → Fin C → F)
    (noise u : Fin D → Fin C → ℝ) (s : SState D C)
    (d : Fin D) (c : Fin C) (r : ℝ)
    (hu : u d c = 0)
    (hdiff : fsub (logpdf (proposalOf s noise) c) (s.log_prob d c) = F.real r) :
    do_accept logpdf noise u s d c ∧
    (metropolisStep logpdf noise u s).position d c = proposalOf s noise d c ∧
    (metropolisStep logpdf noise u s).log_prob d c
      = logpdf (proposalOf s noise) c := by
  have hacc : do_accept logpdf noise u s d c := by
    unfold do_accept
    rw [hu, flog_zero, hdiff]
    exact flt_neginf_real r
  refine ⟨hacc, ?_, ?_⟩ <;> simp only [metropolisStep] <;> rw [if_pos hacc]

/-- Witness for the amended claim C4 at a concrete input. -/
theorem c4_zero_uniform_auto_accepts_witness :
    zU 0 0 0 = 0 ∧
    fsub (zLogpdf (proposalOf (initState zLogpdf zInit) (zNoise 0)) 0)
      ((initState zLogpdf zInit).log_prob 0 0) = F.real (0 + -0) ∧
    do_accept zLogpdf (zNoise 0) (zU 0) (initState zLogpdf zInit) 0 0 :=
  ⟨rfl, rfl,
    (c4_zero_uniform_auto_accepts zLogpdf (zNoise 0) (zU 0)
      (initState zLogpdf zInit) 0 0 (0 + -0) rfl rfl).1⟩

/-- Claim C5: the first value yielded by the generator is exactly the
caller-supplied initial position, before any proposal step; the setup makes
exactly one log-density call before the first yield, and each subsequent
draw makes exactly one further log-density call (the instrumented sampler,
whose call counter is bumped exactly at the source's two call sites, agrees
with the plain sampler and its counter increases by one per draw). -/
theorem c5_initial_yield_and_one_call_per_draw {D C : ℕ}
    (logpdf : (Fin D → Fin C → F) → Fin C → F)
    (initial_position : Fin D → Fin C → F)
    (noise u : ℕ → Fin D → Fin C → ℝ) :
    rw_metropolis_sampler logpdf initial_position noise u 0 = initial_position ∧
    (sampleCounted logpdf initial_position noise u 0).2 = 1 ∧
    (∀ n, (sampleCounted logpdf initial_position noise u (n + 1)).2 =
      (sampleCounted logpdf initial_position noise u n).2 + 1) ∧
    (∀ n, (sampleCounted logpdf initial_position noise u n).1 =
      sampleState logpdf initial_position noise u n) :=
  ⟨rfl, rfl, fun _ => rfl, sampleCounted_fst logpdf initial_position noise u⟩

/-- Claim C6: if the log-density of the proposal is NaN for chain c, then no
cell of column c accepts at that step (any comparison against NaN is false),
so both the position and the stored log-density of chain c are retained; the
sampler itself is a total function of its inputs, so it keeps producing
draws. -/
theorem c6_nan_proposal_never_accepts {D C : ℕ}
    (logpdf : (Fin D → Fin C → F) → Fin C → F)
    (noise u : Fin D → Fin C → ℝ) (s : SState D C) (c : Fin C)
    (h : logpdf (proposalOf s noise) c = F.nan) (d : Fin D) :
    ¬ do_accept logpdf noise u s d c ∧
    (metropolisStep logpdf noise u s).position d c = s.position d c ∧
    (metropolisStep logpdf noise u s).log_prob d c = s.log_prob d c := by
  have hno : ¬ do_accept logpdf noise u s d c := by
    unfold do_accept
    rw [h, fsub_nan_left]
    exact not_flt_nan_right _
  refine ⟨hno, ?_, ?_⟩ <;> simp only [metropolisStep] <;> rw [if_neg hno]

/-- Witness for claim C6 at a concrete input with an everywhere-NaN
log-density. -/
theorem c6_nan_proposal_never_accepts_witness :
    nanLogpdf (proposalOf (initState nanLogpdf zInit) (zNoise 0)) 0 = F.nan ∧
    ¬ do_accept nanLogpdf (zNoise 0) (zU 0) (initState nanLogpdf zInit) 0 0 :=
  ⟨rfl,
    (c6_nan_proposal_never_accepts nanLogpdf (zNoise 0) (zU 0)
      (initState nanLogpdf zInit) 0 rfl 0).1⟩

/-- Claim C7: the driver pulls exactly s + 2 draws for every non-negative
requested count s (in particular 1002 draws for the default 1000), and with
a finite (4, 4) zero initial position every cell of every draw is a finite
real number, NaN/Inf-free, for any log-density and any input streams. -/
theorem c7_driver_consumes_samples_plus_two :
    (∀ s : ℕ, driverConsume (s : ℤ) 0 = s + 2) ∧
    driverConsume 1000 0 = 1002 ∧
    (∀ (logpdf : (Fin 4 → Fin 4 → F) → Fin 4 → F)
      (noise u : ℕ → Fin 4 → Fin 4 → ℝ) (n : ℕ) (d c : Fin 4),
      ∃ r : ℝ,
        rw_metropolis_sampler logpdf (fun _ _ => F.real 0) noise u n d c
          = F.real r) := by
  refine ⟨driverConsume_nonneg, ?_, ?_⟩
  · have h := driverConsume_nonneg 1000
    norm_num at h
    exact h
  · intro logpdf noise u n d c
    exact sampleState_position_real logpdf _ noise u (fun _ _ => ⟨0, rfl⟩) n d c

/-- Claim C8 as stated is false: a negative `--samples` value is not
rejected by any input validation; the driver loop silently consumes exactly
one draw (the initial one) and completes normally, and requesting zero
samples consumes two draws (the initial one plus one stepped draw), not
exactly the initial draw. -/
theorem c8_validation_counterexample :
    driverConsume 0 0 = 2 ∧ driverConsume (-1) 0 = 1 := by
  constructor
  · have h := driverConsume_nonneg 0
    norm_num at h
    exact h
  · exact driverConsume_neg (by norm_num)

/-- Claim C8, amended: a negative requested sample count is accepted without
any validation error; the driver loop breaks at the very first draw,
consuming exactly one draw, and a zero requested count consumes exactly two
draws (the initial draw plus one stepped draw). -/
theorem c8_negative_consumes_one_zero_consumes_two (n : ℤ) (h : n < 0) :
    driverConsume n 0 = 1 ∧ driverConsume 0 0 = 2 := by
  refine ⟨driverConsume_neg h, ?_⟩
  have h0 := driverConsume_nonneg 0
  norm_num at h0
  exact h0

/-- Witness for the amended claim C8 at the concrete count -2. -/
theorem c8_negative_consumes_one_zero_consumes_two_witness :
    (-2 : ℤ) < 0 ∧ driverConsume (-2) 0 = 1 :=
  ⟨by norm_num, (c8_negative_consumes_one_zero_consumes_two (-2) (by norm_num)).1⟩

/-- Claim C9: with the randomness passed in as explicit streams, the sampler
is a pure function of the log-density, the initial position and the two
streams; two runs with identical inputs produce identical draw sequences. -/
theorem c9_deterministic_replay {D C : ℕ}
    (f g : (Fin D → Fin C → F) → Fin C → F)
    (x y : Fin D → Fin C → F)
    (n1 n2 u1 u2 : ℕ → Fin D → Fin C → ℝ)
    (hf : f = g) (hx : x = y) (hn : n1 = n2) (hu : u1 = u2) (k : ℕ) :
    rw_metropolis_sampler f x n1 u1 k = rw_metropolis_sampler g y n2 u2 k := by
  subst hf hx hn hu
  rfl

/-- Witness for claim C9 at a concrete input. -/
theorem c9_deterministic_replay_witness :
    rw_metropolis_sampler zLogpdf zInit zNoise zU 3 =
      rw_metropolis_sampler zLogpdf zInit zNoise zU 3 :=
  c9_deterministic_replay zLogpdf zLogpdf zInit zInit zNoise zNoise zU zU
    rfl rfl rfl rfl 3

/-- Claim C10: the n-th draw exists for every n (the generator is a total
function of the step index) and, rendered as an explicit list of rows, it
has exactly D rows of C cells each, the shape of the initial position. -/
theorem c10_every_draw_has_shape {D C : ℕ}
    (logpdf : (Fin D → Fin C → F) → Fin C → F)
    (initial_position : Fin D → Fin C → F)
    (noise u : ℕ → Fin D → Fin C → ℝ) (n : ℕ) :
    (drawRows (rw_metropolis_sampler logpdf initial_position noise u n)).length
      = D ∧
    ((drawRows (rw_metropolis_sampler logpdf initial_position noise u n)).all
      fun row => row.length == C) = true := by
  constructor
  · simp [drawRows]
  · rw [List.all_eq_true]
    intro row hrow
    rw [drawRows, List.mem_ofFn] at hrow
    obtain ⟨d, rfl⟩ := hrow
    simp
